import Mathlib

/-!
Verification of the computational-geometry core of
`points-polygons-triangles-rs` (`src/main.rs`): orientation predicate,
Graham-scan convex hull construction, the exact point-in-polygon test,
the angular binary search and the fast point-in-polygon test.

The Rust `f64` coordinates are modelled as real numbers (exact
arithmetic); `f64::atan2` is modelled by the mathematical `atan2`
defined by cases from `Real.arctan`.  Panics are modelled by explicit
error values (`Option`/dedicated constructors), and the unbounded
recursion of `binary_search_angles` is modelled with an explicit fuel
parameter (running out of fuel is the dedicated value `BsaOut.noFuel`).
-/

open Real

namespace PolyGeo

/-- Rust `type Point = Vector2<f64>;` — modelled as a pair of reals,
`.1` is the `x` coordinate and `.2` is the `y` coordinate. -/
abbrev Point : Type := ℝ × ℝ

/-- Default value used for the (never out-of-range) list indexing. -/
def origin : Point := ((0 : ℝ), (0 : ℝ))

/-- Rust `enum Orientation { Leftwards, Collinear, Rightwards }`. -/
inductive Orientation
  | Leftwards
  | Collinear
  | Rightwards
deriving DecidableEq, Repr

/-- The scalar value whose sign `Orientation::calc` inspects: cgmath
`Matrix3::new(1,1,1, s.x,p.x,e.x, s.y,p.y,e.y)` is column-major, and its
`determinant()` is the scalar triple product `(c0 × c1) ⬝ c2` of the three
columns `(1,1,1)`, `(s.x,p.x,e.x)`, `(s.y,p.y,e.y)`. -/
def orientDet (s p e : Point) : ℝ :=
  (e.1 - p.1) * s.2 + (s.1 - e.1) * p.2 + (p.1 - s.1) * e.2

/-- Rust `Orientation::calc`: `Rightwards` if the determinant is negative,
`Leftwards` if positive, `Collinear` otherwise. -/
noncomputable def Orientation.calc (s p e : Point) : Orientation :=
  if orientDet s p e < 0 then Orientation.Rightwards
  else if 0 < orientDet s p e then Orientation.Leftwards
  else Orientation.Collinear

/-- Mathematical `atan2` (the value `f64::atan2(y, x)` computes on finite
inputs): case split on the signs of `x` and `y` around `Real.arctan`. -/
noncomputable def atan2 (y x : ℝ) : ℝ :=
  if 0 < x then Real.arctan (y / x)
  else if x < 0 then
    (if 0 ≤ y then Real.arctan (y / x) + π else Real.arctan (y / x) - π)
  else
    (if 0 < y then π / 2 else if y < 0 then -(π / 2) else 0)

/-- Rust `fn angle(p: &Point) -> f64`: `atan2` of the vector, shifted by
`2π` into `[0, 2π)` when negative. -/
noncomputable def angle (p : Point) : ℝ :=
  let a := atan2 p.2 p.1
  if a < 0 then a + 2 * π else a

/-- Rust `fn wrapped_angle_sub(angle: f64, sub: f64) -> f64`. -/
noncomputable def wrappedAngleSub (a sub : ℝ) : ℝ :=
  let s := a - sub
  if s < 0 then s + 2 * π else s

/-- Rust `struct ConvexPoly`. -/
structure ConvexPoly where
  all : List Point
  hull : List Point
  x_min : ℝ
  x_max : ℝ
  y_min : ℝ
  y_max : ℝ

/-- The stable sort of the input by `y` coordinate
(`points.sort_by(|a, b| a.y.total_cmp(&b.y))`); Rust `sort_by` is stable,
modelled by the stable `List.insertionSort`. -/
noncomputable def ysorted (points : List Point) : List Point :=
  List.insertionSort (fun a b => a.2 ≤ b.2) points

/-- The stable sort of the remaining points by polar angle around the
pivot (`points[1..].sort_by(...)` comparing `angle(a - smallest)` with
`angle(b - smallest)` via `total_cmp`). -/
noncomputable def anglesorted (p0 : Point) (rest : List Point) : List Point :=
  List.insertionSort (fun a b => angle (a - p0) ≤ angle (b - p0)) rest

/-- The inner `while` loop of the scan: pop the stack while it has more
than one element and the last two stack entries together with the next
point `p` make a `Rightwards` turn.  The stack is kept top-first, so the
Rust `hull[hull.len()-2]` is the second list entry and `hull[hull.len()-1]`
is the head. -/
noncomputable def popWhile (p : Point) : List Point → List Point
  | b :: a :: rest =>
    if Orientation.calc a b p = Orientation.Rightwards then popWhile p (a :: rest)
    else b :: a :: rest
  | l => l

/-- The `for i in 1..n` scan loop: pop then push each remaining point. -/
noncomputable def scanAux (stack : List Point) : List Point → List Point
  | [] => stack
  | p :: rest => scanAux (p :: popWhile p stack) rest

/-- The hull produced by the scan, in hull order (stack bottom first):
start from the stack `[points[0]]` and consume the angle-sorted rest. -/
noncomputable def grahamScan (p0 : Point) (rest : List Point) : List Point :=
  (scanAux [p0] rest).reverse

/-- The final rotation of the hull
(`shifted_hull.push(hull[(i + 3) % hull.len()])`). -/
noncomputable def shiftHull (hull : List Point) : List Point :=
  (List.range hull.length).map fun i => hull.getD ((i + 3) % hull.length) origin

/-- Rust `iter().map(...).reduce(|a, b| a.min(b))` over a list of reals
(the empty case is irrelevant: `new` is only evaluated on ≥ 1 point). -/
noncomputable def listMin : List ℝ → ℝ
  | [] => 0
  | x :: xs => xs.foldl min x

/-- Rust `iter().map(...).reduce(|a, b| a.max(b))`. -/
noncomputable def listMax : List ℝ → ℝ
  | [] => 0
  | x :: xs => xs.foldl max x

/-- Rust `ConvexPoly::new`.  On the empty input the source evaluates
`points[0]`, an out-of-bounds index panic; this is modelled by `none`.
Otherwise it y-sorts, angle-sorts the tail around the pivot, runs the
scan, rotates the hull by three positions and records the bounding box
of all (sorted) points. -/
noncomputable def convexPolyNew (points : List Point) : Option ConvexPoly :=
  match ysorted points with
  | [] => none
  | p0 :: rest =>
    let pts := p0 :: anglesorted p0 rest
    some { all := pts
           hull := shiftHull (grahamScan p0 (anglesorted p0 rest))
           x_min := listMin (pts.map Prod.fst)
           x_max := listMax (pts.map Prod.fst)
           y_min := listMin (pts.map Prod.snd)
           y_max := listMax (pts.map Prod.snd) }

/-- The edge loop of `is_point_in_polygon`: starting at index `i`, return
`false` as soon as some directed hull edge `(hull[i], hull[(i+1) % len])`
sees `p` on its `Leftwards` side, `true` if the loop finishes. -/
noncomputable def edgeCheck (hull : List Point) (p : Point) (i : ℕ) : Bool :=
  if h : i < hull.length then
    if Orientation.calc (hull.getD i origin) p
        (hull.getD ((i + 1) % hull.length) origin) = Orientation.Leftwards then false
    else edgeCheck hull p (i + 1)
  else true
termination_by hull.length - i
decreasing_by omega

/-- Rust `fn is_point_in_polygon`: bounding-box reject, then the edge loop. -/
noncomputable def isPointInPolygon (poly : ConvexPoly) (p : Point) : Bool :=
  if p.1 < poly.x_min ∨ poly.x_max < p.1 ∨ p.2 < poly.y_min ∨ poly.y_max < p.2 then false
  else edgeCheck poly.hull p 0

/-- Result of `binary_search_angles`: a returned index, one of the two
`panic!("infinite recursion")` guards firing (`guardHit`), the entry
`assert!(low <= high)` failing (`assertFail`), or fuel exhaustion
(`noFuel`, marking a recursion deeper than the fuel allows). -/
inductive BsaOut
  | found (k : ℕ)
  | guardHit
  | assertFail
  | noFuel
deriving DecidableEq, Repr

/-- Rust `fn binary_search_angles`, with an explicit fuel parameter for
the recursion depth.  `pts.getD i origin` models the slice indexing
`points[i]` (always in range at every reachable call site). -/
noncomputable def binarySearchAngles (pts : List Point) (center : Point)
    (searchAngle offsetAngle : ℝ) : ℕ → ℕ → ℕ → BsaOut
  | 0, _, _ => BsaOut.noFuel
  | fuel + 1, low, high =>
    if ¬ low ≤ high then BsaOut.assertFail
    else if low = high then BsaOut.found low
    else if high - low = 1 then
      let lowdiff := |wrappedAngleSub (angle (pts.getD low origin - center)) offsetAngle -
        searchAngle|
      let highdiff := |wrappedAngleSub (angle (pts.getD high origin - center)) offsetAngle -
        searchAngle|
      if lowdiff < highdiff then BsaOut.found low else BsaOut.found high
    else
      let middle := (high + low) / 2
      let middleAngle := wrappedAngleSub (angle (pts.getD middle origin - center)) offsetAngle
      if searchAngle < middleAngle then
        if middle - 1 = high then BsaOut.guardHit
        else binarySearchAngles pts center searchAngle offsetAngle fuel low middle
      else
        if middle + 1 = low then BsaOut.guardHit
        else binarySearchAngles pts center searchAngle offsetAngle fuel middle high

/-- Rust `fn is_point_in_polygon_fast`.  `none` models a panic inside the
search (or fuel exhaustion, which never happens at fuel `hull.length`,
the recursion depth being bounded by the initial interval width). -/
noncomputable def isPointInPolygonFast (poly : ConvexPoly) (p : Point) : Option Bool :=
  let h0 := poly.hull.getD 0 origin
  let h1 := poly.hull.getD 1 origin
  let h2 := poly.hull.getD 2 origin
  let center : Point := ((h0.1 + h1.1 + h2.1) / 3, (h0.2 + h1.2 + h2.2) / 3)
  let offsetAngle := angle (h0 - center)
  let searchAngle := wrappedAngleSub (angle (p - center)) offsetAngle
  match binarySearchAngles poly.hull.tail center searchAngle offsetAngle
      poly.hull.length 0 (poly.hull.length - 2) with
  | BsaOut.found k =>
    let left := poly.hull.getD k origin
    let closest := poly.hull.getD ((k + 1) % poly.hull.length) origin
    let right := poly.hull.getD ((k + 2) % poly.hull.length) origin
    some (decide (Orientation.calc left p closest = Orientation.Rightwards) &&
          decide (Orientation.calc closest p right = Orientation.Rightwards))
  | _ => none

/-- The invariant maintained by the scan stack (top of the stack first):
every three adjacent stack entries `c, b, a` (so `a, b, c` in hull order)
satisfy `Orientation::calc(a, b, c) != Rightwards`. -/
def GoodStack : List Point → Prop
  | c :: b :: a :: rest =>
    Orientation.calc a b c ≠ Orientation.Rightwards ∧ GoodStack (b :: a :: rest)
  | _ => True

/-- The axis-aligned square input `{(0,0),(4,0),(4,4),(0,4)}`. -/
noncomputable def sqInput : List Point :=
  [((0 : ℝ), (0 : ℝ)), ((4 : ℝ), (0 : ℝ)), ((4 : ℝ), (4 : ℝ)), ((0 : ℝ), (4 : ℝ))]

/-- The `ConvexPoly` that `ConvexPoly::new` builds from `sqInput`
(hull rotated by three positions, bounding box `[0,4] × [0,4]`). -/
noncomputable def sqPoly : ConvexPoly :=
  { all := sqInput
    hull := [((0 : ℝ), (4 : ℝ)), ((0 : ℝ), (0 : ℝ)), ((4 : ℝ), (0 : ℝ)), ((4 : ℝ), (4 : ℝ))]
    x_min := 0
    x_max := 4
    y_min := 0
    y_max := 4 }

/-- The all-collinear input `{(0,0),(1,1),(2,2)}`. -/
noncomputable def col3 : List Point :=
  [((0 : ℝ), (0 : ℝ)), ((1 : ℝ), (1 : ℝ)), ((2 : ℝ), (2 : ℝ))]

/-- The `ConvexPoly` that `ConvexPoly::new` builds from `col3`: a
degenerate "hull" of three collinear vertices. -/
noncomputable def col3Poly : ConvexPoly :=
  { all := col3
    hull := col3
    x_min := 0
    x_max := 2
    y_min := 0
    y_max := 2 }

/-- An input with three collinear points on the lower edge plus one apex:
`{(0,0),(1,0),(2,0),(1,1)}`. -/
noncomputable def inp5 : List Point :=
  [((0 : ℝ), (0 : ℝ)), ((1 : ℝ), (0 : ℝ)), ((2 : ℝ), (0 : ℝ)), ((1 : ℝ), (1 : ℝ))]

/-- One-step unfolding of `binarySearchAngles` at positive fuel. -/
lemma bsa_succ (pts : List Point) (center : Point) (sa oa : ℝ) (n low high : ℕ) :
    binarySearchAngles pts center sa oa (n + 1) low high =
      if ¬ low ≤ high then BsaOut.assertFail
      else if low = high then BsaOut.found low
      else if high - low = 1 then
        (if |wrappedAngleSub (angle (pts.getD low origin - center)) oa - sa| <
            |wrappedAngleSub (angle (pts.getD high origin - center)) oa - sa|
         then BsaOut.found low else BsaOut.found high)
      else
        (if sa < wrappedAngleSub (angle (pts.getD ((high + low) / 2) origin - center)) oa then
          (if (high + low) / 2 - 1 = high then BsaOut.guardHit
           else binarySearchAngles pts center sa oa n low ((high + low) / 2))
         else
          (if (high + low) / 2 + 1 = low then BsaOut.guardHit
           else binarySearchAngles pts center sa oa n ((high + low) / 2) high)) := rfl

/-- Any call with `low ≤ high` and fuel exceeding the interval width
returns `found k` with `low ≤ k ≤ high`: the search always terminates
and always returns an in-range index, whatever the stored angles. -/
lemma bsaTotal (pts : List Point) (center : Point) (sa oa : ℝ) :
    ∀ fuel low high : ℕ, low ≤ high → high - low < fuel →
      ∃ k, binarySearchAngles pts center sa oa fuel low high = BsaOut.found k ∧
        low ≤ k ∧ k ≤ high := by
  intro fuel
  induction fuel with
  | zero => intro low high _ hf; omega
  | succ n ih =>
    intro low high hlh _
    rw [bsa_succ, if_neg (by omega)]
    by_cases heq : low = high
    · rw [if_pos heq]
      exact ⟨low, rfl, le_refl _, le_of_eq heq⟩
    · rw [if_neg heq]
      by_cases hone : high - low = 1
      · rw [if_pos hone]
        by_cases hd : |wrappedAngleSub (angle (pts.getD low origin - center)) oa - sa| <
            |wrappedAngleSub (angle (pts.getD high origin - center)) oa - sa|
        · rw [if_pos hd]
          exact ⟨low, rfl, le_refl _, hlh⟩
        · rw [if_neg hd]
          exact ⟨high, rfl, hlh, le_refl _⟩
      · rw [if_neg hone]
        by_cases hm : sa < wrappedAngleSub (angle (pts.getD ((high + low) / 2) origin - center)) oa
        · rw [if_pos hm, if_neg (by omega)]
          obtain ⟨k, hk, hk1, hk2⟩ := ih low ((high + low) / 2) (by omega) (by omega)
          exact ⟨k, hk, hk1, by omega⟩
        · rw [if_neg hm, if_neg (by omega)]
          obtain ⟨k, hk, hk1, hk2⟩ := ih ((high + low) / 2) high (by omega) (by omega)
          exact ⟨k, hk, by omega, hk2⟩

/-- At any fuel, a call with `low ≤ high` never reaches either
`panic!("infinite recursion")` guard, whatever the stored angles. -/
lemma bsaNoGuard (pts : List Point) (center : Point) (sa oa : ℝ) :
    ∀ fuel low high : ℕ, low ≤ high →
      binarySearchAngles pts center sa oa fuel low high ≠ BsaOut.guardHit := by
  intro fuel
  induction fuel with
  | zero => intro low high _; simp [binarySearchAngles]
  | succ n ih =>
    intro low high hlh
    rw [bsa_succ, if_neg (by omega)]
    by_cases heq : low = high
    · simp [if_pos heq]
    · rw [if_neg heq]
      by_cases hone : high - low = 1
      · rw [if_pos hone]
        by_cases hd : |wrappedAngleSub (angle (pts.getD low origin - center)) oa - sa| <
            |wrappedAngleSub (angle (pts.getD high origin - center)) oa - sa|
        · rw [if_pos hd]
          exact fun h => by cases h
        · rw [if_neg hd]
          exact fun h => by cases h
      · rw [if_neg hone]
        by_cases hm : sa < wrappedAngleSub (angle (pts.getD ((high + low) / 2) origin - center)) oa
        · rw [if_pos hm, if_neg (by omega)]
          exact ih low ((high + low) / 2) (by omega)
        · rw [if_neg hm, if_neg (by omega)]
          exact ih ((high + low) / 2) high (by omega)

lemma angle_one_zero : angle ((1 : ℝ), (0 : ℝ)) = 0 := by
  have h : atan2 (0 : ℝ) 1 = 0 := by
    unfold atan2
    rw [if_pos one_pos]
    norm_num [Real.arctan_zero]
  unfold angle
  rw [h]
  norm_num

lemma angle_zero_one : angle ((0 : ℝ), (1 : ℝ)) = π / 2 := by
  have h : atan2 (1 : ℝ) 0 = π / 2 := by
    unfold atan2
    rw [if_neg (by norm_num), if_neg (by norm_num), if_pos one_pos]
  unfold angle
  rw [h, if_neg (not_lt.mpr (by positivity))]

lemma angle_one_one : angle ((1 : ℝ), (1 : ℝ)) = π / 4 := by
  have h : atan2 (1 : ℝ) 1 = π / 4 := by
    unfold atan2
    rw [if_pos one_pos]
    norm_num [Real.arctan_one]
  unfold angle
  rw [h, if_neg (not_lt.mpr (by positivity))]

lemma wrappedAngleSub_zero (a : ℝ) (ha : 0 ≤ a) : wrappedAngleSub a 0 = a := by
  unfold wrappedAngleSub
  rw [sub_zero, if_neg (not_lt.mpr ha)]

lemma wrappedAngleSub_of_nonneg (a b : ℝ) (h : 0 ≤ a - b) : wrappedAngleSub a b = a - b := by
  unfold wrappedAngleSub
  rw [if_neg (not_lt.mpr h)]

lemma wrappedAngleSub_of_neg (a b : ℝ) (h : a - b < 0) : wrappedAngleSub a b = a - b + 2 * π := by
  unfold wrappedAngleSub
  rw [if_pos h]

lemma arctanPos (x : ℝ) (hx : 0 < x) : 0 < Real.arctan x := by
  rw [← Real.arctan_zero]
  exact Real.arctan_strictMono hx

lemma atan2_pos_x (y x : ℝ) (hx : 0 < x) : atan2 y x = Real.arctan (y / x) := by
  unfold atan2
  rw [if_pos hx]

lemma atan2_neg_x_nonneg_y (y x : ℝ) (hx : x < 0) (hy : 0 ≤ y) :
    atan2 y x = Real.arctan (y / x) + π := by
  unfold atan2
  rw [if_neg (by linarith), if_pos hx, if_pos hy]

lemma atan2_neg_x_neg_y (y x : ℝ) (hx : x < 0) (hy : y < 0) :
    atan2 y x = Real.arctan (y / x) - π := by
  unfold atan2
  rw [if_neg (by linarith), if_pos hx, if_neg (not_le.mpr hy)]

lemma angle_of_nonneg (p : Point) (h : 0 ≤ atan2 p.2 p.1) : angle p = atan2 p.2 p.1 := by
  unfold angle
  rw [if_neg (not_lt.mpr h)]

lemma angle_of_neg (p : Point) (h : atan2 p.2 p.1 < 0) : angle p = atan2 p.2 p.1 + 2 * π := by
  unfold angle
  rw [if_pos h]

lemma angle_two_zero : angle ((2 : ℝ), (0 : ℝ)) = 0 := by
  have he : atan2 (0 : ℝ) 2 = 0 := by
    rw [atan2_pos_x _ _ (by norm_num)]
    norm_num [Real.arctan_zero]
  rw [angle_of_nonneg _ (by rw [he]), he]

lemma angle_four_zero : angle ((4 : ℝ), (0 : ℝ)) = 0 := by
  have he : atan2 (0 : ℝ) 4 = 0 := by
    rw [atan2_pos_x _ _ (by norm_num)]
    norm_num [Real.arctan_zero]
  rw [angle_of_nonneg _ (by rw [he]), he]

lemma angle_two_two : angle ((2 : ℝ), (2 : ℝ)) = π / 4 := by
  have he : atan2 (2 : ℝ) 2 = π / 4 := by
    rw [atan2_pos_x _ _ (by norm_num)]
    norm_num [Real.arctan_one]
  rw [angle_of_nonneg _ (by rw [he]; positivity), he]

lemma angle_four_four : angle ((4 : ℝ), (4 : ℝ)) = π / 4 := by
  have he : atan2 (4 : ℝ) 4 = π / 4 := by
    rw [atan2_pos_x _ _ (by norm_num)]
    norm_num [Real.arctan_one]
  rw [angle_of_nonneg _ (by rw [he]; positivity), he]

lemma angle_zero_four : angle ((0 : ℝ), (4 : ℝ)) = π / 2 := by
  have he : atan2 (4 : ℝ) 0 = π / 2 := by
    unfold atan2
    rw [if_neg (by norm_num), if_neg (by norm_num), if_pos (by norm_num)]
  rw [angle_of_nonneg _ (by rw [he]; positivity), he]

lemma angle_nw : angle ((-(4 / 3) : ℝ), ((8 : ℝ) / 3)) = π - Real.arctan 2 := by
  have he : atan2 ((8 : ℝ) / 3) (-(4 / 3) : ℝ) = π - Real.arctan 2 := by
    rw [atan2_neg_x_nonneg_y _ _ (by norm_num) (by norm_num)]
    have hq : ((8 : ℝ) / 3) / (-(4 / 3) : ℝ) = -2 := by norm_num
    rw [hq, show (-2 : ℝ) = -(2 : ℝ) from rfl, Real.arctan_neg]
    ring
  rw [angle_of_nonneg _ ?hnn, he]
  case hnn =>
    rw [he]
    have := Real.arctan_lt_pi_div_two 2
    have := Real.pi_pos
    linarith

lemma angle_ne_third : angle (((2 : ℝ) / 3, (8 : ℝ) / 3)) = Real.arctan 4 := by
  have he : atan2 ((8 : ℝ) / 3) ((2 : ℝ) / 3) = Real.arctan 4 := by
    rw [atan2_pos_x _ _ (by norm_num)]
    norm_num
  rw [angle_of_nonneg _ ?hnn, he]
  case hnn =>
    rw [he]
    exact (arctanPos 4 (by norm_num)).le

lemma angle_sw : angle ((-(4 / 3) : ℝ), (-(4 / 3) : ℝ)) = π + π / 4 := by
  have he : atan2 (-(4 / 3) : ℝ) (-(4 / 3) : ℝ) = π / 4 - π := by
    rw [atan2_neg_x_neg_y _ _ (by norm_num) (by norm_num)]
    have hq : (-(4 / 3) : ℝ) / (-(4 / 3) : ℝ) = 1 := by norm_num
    rw [hq, Real.arctan_one]
  have hneg : atan2 (-(4 / 3) : ℝ) (-(4 / 3) : ℝ) < 0 := by
    rw [he]
    have := Real.pi_pos
    linarith
  rw [angle_of_neg _ hneg, he]
  ring

lemma angle_se : angle (((8 : ℝ) / 3, (-(4 / 3) : ℝ))) = 2 * π - Real.arctan (1 / 2) := by
  have he : atan2 (-(4 / 3) : ℝ) ((8 : ℝ) / 3) = -Real.arctan (1 / 2) := by
    rw [atan2_pos_x _ _ (by norm_num)]
    have hq : (-(4 / 3) : ℝ) / ((8 : ℝ) / 3) = -(1 / 2) := by norm_num
    rw [hq, Real.arctan_neg]
  have hneg : atan2 (-(4 / 3) : ℝ) ((8 : ℝ) / 3) < 0 := by
    rw [he]
    have := arctanPos (1 / 2) (by norm_num)
    linarith
  rw [angle_of_neg _ hneg, he]
  ring

lemma angle_ne_big : angle (((8 : ℝ) / 3, (8 : ℝ) / 3)) = π / 4 := by
  have he : atan2 ((8 : ℝ) / 3) ((8 : ℝ) / 3) = π / 4 := by
    rw [atan2_pos_x _ _ (by norm_num)]
    have hq : ((8 : ℝ) / 3) / ((8 : ℝ) / 3) = 1 := by norm_num
    rw [hq, Real.arctan_one]
  rw [angle_of_nonneg _ (by rw [he]; positivity), he]

/-- C2: `Orientation::calc(s, p, e)` returns `Rightwards` iff the
determinant of the 3×3 matrix with rows `[1,1,1]`, `[s.x,p.x,e.x]`,
`[s.y,p.y,e.y]` is strictly negative, `Leftwards` iff it is strictly
positive, and `Collinear` iff it is exactly zero. -/
theorem c2_orientation_det (s p e : Point) :
    (Orientation.calc s p e = Orientation.Rightwards ↔
      Matrix.det !![1, 1, 1; s.1, p.1, e.1; s.2, p.2, e.2] < 0) ∧
    (Orientation.calc s p e = Orientation.Leftwards ↔
      0 < Matrix.det !![1, 1, 1; s.1, p.1, e.1; s.2, p.2, e.2]) ∧
    (Orientation.calc s p e = Orientation.Collinear ↔
      Matrix.det !![1, 1, 1; s.1, p.1, e.1; s.2, p.2, e.2] = 0) := by
  have hdet : Matrix.det !![1, 1, 1; s.1, p.1, e.1; s.2, p.2, e.2] = orientDet s p e := by
    rw [Matrix.det_fin_three]
    simp [Matrix.cons_val_zero, Matrix.cons_val_one, orientDet]
    ring
  rw [hdet]
  unfold Orientation.calc
  split_ifs with h1 h2
  · refine ⟨⟨fun _ => h1, fun _ => rfl⟩,
      ⟨fun hc => absurd hc (by simp), fun hc => absurd h1 (by linarith)⟩,
      ⟨fun hc => absurd hc (by simp), fun hc => absurd h1 (by simp [hc])⟩⟩
  · refine ⟨⟨fun hc => absurd hc (by simp), fun hc => absurd h2 (by linarith)⟩,
      ⟨fun _ => h2, fun _ => rfl⟩,
      ⟨fun hc => absurd hc (by simp), fun hc => absurd h2 (by simp [hc])⟩⟩
  · have hz : orientDet s p e = 0 := le_antisymm (by linarith) (by linarith)
    refine ⟨⟨fun hc => absurd hc (by simp), fun hc => absurd hc h1⟩,
      ⟨fun hc => absurd hc (by simp), fun hc => absurd hc h2⟩,
      ⟨fun _ => hz, fun _ => rfl⟩⟩

/-- C6: for every points slice, center, search angle, offset angle and
indices with `low ≤ high < points.len()`, `binary_search_angles` returns
`low` when `low == high`, and when `high == low + 1` it returns `low` if
the absolute difference between the wrapped angle of `points[low]` and
the search angle is strictly smaller than that of `points[high]`, and
`high` otherwise. -/
theorem c6_base_cases (pts : List Point) (center : Point) (sa oa : ℝ)
    (low high fuel : ℕ) (h1 : low ≤ high) (h2 : high < pts.length) :
    (low = high → binarySearchAngles pts center sa oa (fuel + 1) low high = BsaOut.found low) ∧
    (high = low + 1 →
      binarySearchAngles pts center sa oa (fuel + 1) low high =
        BsaOut.found
          (if |wrappedAngleSub (angle (pts.getD low origin - center)) oa - sa| <
              |wrappedAngleSub (angle (pts.getD high origin - center)) oa - sa|
           then low else high)) := by
  constructor
  · intro heq
    rw [bsa_succ, if_neg (by omega), if_pos heq]
  · intro heq
    rw [bsa_succ, if_neg (by omega), if_neg (by omega), if_pos (by omega)]
    by_cases hd : |wrappedAngleSub (angle (pts.getD low origin - center)) oa - sa| <
        |wrappedAngleSub (angle (pts.getD high origin - center)) oa - sa|
    · rw [if_pos hd, if_pos hd]
    · rw [if_neg hd, if_neg hd]

/-- Witness for C6 at a concrete call (`low = high = 1` on a two-point
slice): the search returns `low` directly. -/
theorem c6_base_cases_witness :
    binarySearchAngles [((1 : ℝ), (0 : ℝ)), ((0 : ℝ), (1 : ℝ))] origin 0 0 1 1 1 =
      BsaOut.found 1 :=
  (c6_base_cases [((1 : ℝ), (0 : ℝ)), ((0 : ℝ), (1 : ℝ))] origin 0 0 1 1 0
    (by norm_num) (by norm_num)).1 rfl

/-- C7: every call of `binary_search_angles` with `low ≤ high < points.len()`
terminates — the recursion depth is bounded by the interval width, so with
fuel exceeding `high - low` the fuel is never exhausted, regardless of the
angle values stored in the slice. -/
theorem c7_termination (pts : List Point) (center : Point) (sa oa : ℝ)
    (fuel low high : ℕ) (h1 : low ≤ high) (h2 : high < pts.length)
    (hf : high - low < fuel) :
    binarySearchAngles pts center sa oa fuel low high ≠ BsaOut.noFuel := by
  obtain ⟨k, hk, -, -⟩ := bsaTotal pts center sa oa fuel low high h1 hf
  rw [hk]
  exact fun h => by cases h

/-- Witness for C7 at a concrete call. -/
theorem c7_termination_witness :
    binarySearchAngles [((1 : ℝ), (0 : ℝ)), ((0 : ℝ), (1 : ℝ))] origin 0 0 2 0 1 ≠
      BsaOut.noFuel :=
  c7_termination [((1 : ℝ), (0 : ℝ)), ((0 : ℝ), (1 : ℝ))] origin 0 0 2 0 1
    (by norm_num) (by norm_num) (by norm_num)

/-- C8 (amended): the sortedness precondition is NOT checked: for every
call with `low ≤ high` and sufficient fuel — whether or not the slice is
sorted by wrapped angle — the search silently terminates with an index
`k ∈ [low, high]`; the `panic!("infinite recursion")` guards never fire
and no violation is ever detected. -/
theorem c8_unsorted_silent_return (pts : List Point) (center : Point) (sa oa : ℝ)
    (fuel low high : ℕ) (h1 : low ≤ high) (hf : high - low < fuel) :
    ∃ k, binarySearchAngles pts center sa oa fuel low high = BsaOut.found k ∧
      low ≤ k ∧ k ≤ high :=
  bsaTotal pts center sa oa fuel low high h1 hf

/-- Witness for C8 (amended) at a concrete call on an angle-unsorted slice. -/
theorem c8_unsorted_silent_return_witness :
    ∃ k, binarySearchAngles [((0 : ℝ), (1 : ℝ)), ((1 : ℝ), (0 : ℝ)), ((1 : ℝ), (1 : ℝ))]
      origin 0 0 3 0 2 = BsaOut.found k ∧ 0 ≤ k ∧ k ≤ 2 :=
  c8_unsorted_silent_return [((0 : ℝ), (1 : ℝ)), ((1 : ℝ), (0 : ℝ)), ((1 : ℝ), (1 : ℝ))]
    origin 0 0 3 0 2 (by norm_num) (by norm_num)

/-- Counterexample to C8 as stated: this slice is NOT sorted by wrapped
angle in the assumed (ascending) direction — the wrapped angle of entry 0
(`π/2`) exceeds that of entry 1 (`0`) — yet the search does not panic and
does not report any violation: it silently returns index 1. -/
theorem c8_counterexample :
    ¬ (wrappedAngleSub (angle (((0 : ℝ), (1 : ℝ)) - origin)) 0 ≤
        wrappedAngleSub (angle (((1 : ℝ), (0 : ℝ)) - origin)) 0) ∧
    binarySearchAngles [((0 : ℝ), (1 : ℝ)), ((1 : ℝ), (0 : ℝ)), ((1 : ℝ), (1 : ℝ))]
      origin 0 0 3 0 2 = BsaOut.found 1 := by
  have e0 : (((0 : ℝ), (1 : ℝ)) : Point) - origin = ((0 : ℝ), (1 : ℝ)) := by
    simp [origin, Prod.ext_iff]
  have e1 : (((1 : ℝ), (0 : ℝ)) : Point) - origin = ((1 : ℝ), (0 : ℝ)) := by
    simp [origin, Prod.ext_iff]
  have e2 : (((1 : ℝ), (1 : ℝ)) : Point) - origin = ((1 : ℝ), (1 : ℝ)) := by
    simp [origin, Prod.ext_iff]
  constructor
  · rw [e0, e1, angle_zero_one, angle_one_zero, wrappedAngleSub_zero _ (by positivity),
      wrappedAngleSub_zero _ le_rfl]
    norm_num [Real.pi_pos]
  · have g1 : ([((0 : ℝ), (1 : ℝ)), ((1 : ℝ), (0 : ℝ)), ((1 : ℝ), (1 : ℝ))] :
        List Point).getD 1 origin = ((1 : ℝ), (0 : ℝ)) := rfl
    have g2 : ([((0 : ℝ), (1 : ℝ)), ((1 : ℝ), (0 : ℝ)), ((1 : ℝ), (1 : ℝ))] :
        List Point).getD 2 origin = ((1 : ℝ), (1 : ℝ)) := rfl
    rw [bsa_succ, if_neg (by omega), if_neg (by omega), if_neg (by omega)]
    have hm : ((2 + 0) / 2 : ℕ) = 1 := by norm_num
    rw [hm, g1, e1, angle_one_zero, wrappedAngleSub_zero _ le_rfl,
      if_neg (lt_irrefl 0), if_neg (by omega)]
    rw [bsa_succ, if_neg (by omega), if_neg (by omega), if_pos (by omega)]
    rw [g1, g2, e1, e2, angle_one_zero, angle_one_one,
      wrappedAngleSub_zero _ le_rfl, wrappedAngleSub_zero _ (by positivity)]
    rw [if_pos (by rw [sub_zero, sub_zero, abs_zero, abs_of_nonneg (by positivity)]; positivity)]

/-- C10: the two `panic!("infinite recursion")` branches are unreachable
for every call with `low ≤ high`, at any fuel, sorted or not: the
recursive step is only taken when `low + 2 ≤ high`, which forces
`low < middle < high` and falsifies both guard conditions. -/
theorem c10_guards_unreachable (pts : List Point) (center : Point) (sa oa : ℝ)
    (fuel low high : ℕ) (h1 : low ≤ high) :
    binarySearchAngles pts center sa oa fuel low high ≠ BsaOut.guardHit :=
  bsaNoGuard pts center sa oa fuel low high h1

lemma collinear_ne_rightwards :
    (Orientation.Collinear = Orientation.Rightwards) ↔ False := by simp

lemma leftwards_ne_rightwards :
    (Orientation.Leftwards = Orientation.Rightwards) ↔ False := by simp

lemma rightwards_eq_rightwards :
    (Orientation.Rightwards = Orientation.Rightwards) ↔ True := by simp

lemma collinear_ne_leftwards :
    (Orientation.Collinear = Orientation.Leftwards) ↔ False := by simp

lemma rightwards_ne_leftwards :
    (Orientation.Rightwards = Orientation.Leftwards) ↔ False := by simp

lemma zero_le_pi4 : (0 : ℝ) ≤ π / 4 := by positivity

lemma pi4_le_pi2 : (π / 4 : ℝ) ≤ π / 2 := by
  have := Real.pi_pos
  linarith

lemma ysorted_col3 : ysorted col3 = col3 := by
  rw [col3]
  norm_num [ysorted, List.insertionSort, List.orderedInsert,
    -Prod.mk_one_one, -Prod.mk_zero_zero]

lemma anglesorted_col3 :
    anglesorted ((0 : ℝ), (0 : ℝ)) [((1 : ℝ), (1 : ℝ)), ((2 : ℝ), (2 : ℝ))] =
      [((1 : ℝ), (1 : ℝ)), ((2 : ℝ), (2 : ℝ))] := by
  norm_num [anglesorted, List.insertionSort, List.orderedInsert, Prod.mk_sub_mk,
    angle_one_one, angle_two_two, -Prod.mk_one_one, -Prod.mk_zero_zero]

lemma grahamScan_col3 :
    grahamScan ((0 : ℝ), (0 : ℝ)) [((1 : ℝ), (1 : ℝ)), ((2 : ℝ), (2 : ℝ))] = col3 := by
  rw [col3]
  norm_num [grahamScan, scanAux, popWhile, Orientation.calc, orientDet,
    collinear_ne_rightwards, leftwards_ne_rightwards,
    -Prod.mk_one_one, -Prod.mk_zero_zero]

lemma convexPolyNew_col3 : convexPolyNew col3 = some col3Poly := by
  rw [convexPolyNew, ysorted_col3]
  rw [show col3 = ((0 : ℝ), (0 : ℝ)) :: [((1 : ℝ), (1 : ℝ)), ((2 : ℝ), (2 : ℝ))] from rfl]
  simp only [anglesorted_col3, grahamScan_col3]
  rw [show shiftHull col3 = col3 from rfl]
  simp only [col3Poly, col3, Option.some.injEq, ConvexPoly.mk.injEq]
  norm_num [listMin, listMax, -Prod.mk_one_one, -Prod.mk_zero_zero]

/-- C3: `ConvexPoly::new` does NOT fail explicitly on degenerate input:
on the empty input it evaluates `points[0]`, an out-of-bounds index panic
(modelled by `none`), and on the all-collinear input `{(0,0),(1,1),(2,2)}`
it silently returns a degenerate polygon whose three "hull" vertices are
collinear, instead of any explicit degenerate-hull error. -/
theorem c3_no_explicit_degenerate_errors :
    convexPolyNew [] = none ∧
    convexPolyNew col3 = some col3Poly ∧
    Orientation.calc ((0 : ℝ), (0 : ℝ)) ((1 : ℝ), (1 : ℝ)) ((2 : ℝ), (2 : ℝ)) =
      Orientation.Collinear := by
  refine ⟨rfl, convexPolyNew_col3, ?_⟩
  norm_num [Orientation.calc, orientDet, -Prod.mk_one_one, -Prod.mk_zero_zero]

lemma popWhile_sublist (p : Point) : ∀ l : List Point, (popWhile p l).Sublist l := by
  intro l
  induction l with
  | nil => exact List.Sublist.refl _
  | cons b t ih =>
    cases t with
    | nil => exact List.Sublist.refl _
    | cons a rest =>
      rw [popWhile]
      split
      · exact List.Sublist.cons _ ih
      · exact List.Sublist.refl _

lemma scanAux_subset (x : Point) : ∀ (l stack : List Point),
    x ∈ scanAux stack l → x ∈ stack ∨ x ∈ l := by
  intro l
  induction l with
  | nil =>
    intro stack h
    rw [scanAux] at h
    exact Or.inl h
  | cons q rest ih =>
    intro stack h
    rw [scanAux] at h
    rcases ih _ h with h1 | h1
    · rcases List.mem_cons.mp h1 with rfl | h2
      · exact Or.inr (List.mem_cons_self _ _)
      · exact Or.inl ((popWhile_sublist q stack).subset h2)
    · exact Or.inr (List.mem_cons_of_mem _ h1)

lemma scanAux_length : ∀ (l stack : List Point),
    (scanAux stack l).length ≤ stack.length + l.length := by
  intro l
  induction l with
  | nil =>
    intro stack
    rw [scanAux]
    simp
  | cons q rest ih =>
    intro stack
    rw [scanAux]
    have h1 := ih (q :: popWhile q stack)
    have h2 := (popWhile_sublist q stack).length_le
    simp only [List.length_cons] at h1 ⊢
    omega

lemma shiftHull_length (hull : List Point) : (shiftHull hull).length = hull.length := by
  simp [shiftHull]

lemma shiftHull_subset (hull : List Point) (x : Point) :
    x ∈ shiftHull hull → x ∈ hull := by
  intro hx
  simp only [shiftHull, List.mem_map, List.mem_range] at hx
  obtain ⟨i, hi, rfl⟩ := hx
  have hlen : 0 < hull.length := by omega
  have hmod : (i + 3) % hull.length < hull.length := Nat.mod_lt _ hlen
  rw [List.getD_eq_getElem hull origin hmod]
  exact List.getElem_mem _

/-- C9: whenever `ConvexPoly::new` returns a polygon, every hull vertex
is one of the input points (no vertex is synthesized), and the hull has
at most as many vertices as the input has points. -/
theorem c9_hull_vertices_from_input (points : List Point) (poly : ConvexPoly)
    (h : convexPolyNew points = some poly) :
    (∀ v ∈ poly.hull, v ∈ points) ∧ poly.hull.length ≤ points.length := by
  rw [convexPolyNew] at h
  cases hys : ysorted points with
  | nil => rw [hys] at h; cases h
  | cons p0 rest =>
    rw [hys] at h
    simp only [Option.some.injEq] at h
    have hperm : (p0 :: rest).Perm points := by
      rw [← hys]
      exact List.perm_insertionSort _ points
    have hhull : poly.hull = shiftHull (grahamScan p0 (anglesorted p0 rest)) := by
      rw [← h]
    have hap : (anglesorted p0 rest).Perm rest := List.perm_insertionSort _ rest
    constructor
    · intro v hv
      rw [hhull] at hv
      have hv2 := shiftHull_subset _ _ hv
      rw [grahamScan, List.mem_reverse] at hv2
      rcases scanAux_subset v _ _ hv2 with h1 | h1
      · have : v = p0 := by simpa using h1
        exact hperm.mem_iff.mp (this ▸ List.mem_cons_self _ _)
      · exact hperm.mem_iff.mp (List.mem_cons_of_mem _ (hap.mem_iff.mp h1))
    · rw [hhull, shiftHull_length, grahamScan, List.length_reverse]
      calc (scanAux [p0] (anglesorted p0 rest)).length
          ≤ [p0].length + (anglesorted p0 rest).length := scanAux_length _ _
        _ = (p0 :: rest).length := by
            rw [hap.length_eq]
            simp [Nat.add_comm]
        _ = points.length := hperm.length_eq

/-- Witness for C9 at the concrete input `col3`. -/
theorem c9_hull_vertices_from_input_witness :
    (∀ v ∈ col3Poly.hull, v ∈ col3) ∧ col3Poly.hull.length ≤ col3.length :=
  c9_hull_vertices_from_input col3 col3Poly convexPolyNew_col3

lemma edgeCheck_spec (hull : List Point) (p : Point) :
    ∀ n i, hull.length - i ≤ n →
      (edgeCheck hull p i = true ↔
        ∀ j, i ≤ j → j < hull.length →
          Orientation.calc (hull.getD j origin) p
            (hull.getD ((j + 1) % hull.length) origin) ≠ Orientation.Leftwards) := by
  intro n
  induction n with
  | zero =>
    intro i hi
    rw [edgeCheck, dif_neg (by omega)]
    constructor
    · intro _ j hj1 hj2
      exact absurd hj2 (by omega)
    · intro _
      rfl
  | succ n ih =>
    intro i hi
    by_cases h : i < hull.length
    case neg =>
      rw [edgeCheck, dif_neg h]
      constructor
      · intro _ j hj1 hj2
        exact absurd hj2 (by omega)
      · intro _
        rfl
    case pos =>
      rw [edgeCheck, dif_pos h]
      by_cases hL : Orientation.calc (hull.getD i origin) p
          (hull.getD ((i + 1) % hull.length) origin) = Orientation.Leftwards
      · rw [if_pos hL]
        constructor
        · intro hfalse
          cases hfalse
        · intro hall
          exact absurd hL (hall i le_rfl h)
      · rw [if_neg hL]
        rw [ih (i + 1) (by omega)]
        constructor
        · intro hall j hj1 hj2
          rcases Nat.eq_or_lt_of_le hj1 with heq | hlt
          · exact heq ▸ hL
          · exact hall j (by omega) hj2
        · intro hall j hj1 hj2
          exact hall j (by omega) hj2

/-- C4: for a polygon with at least three hull vertices, the exact test
returns `false` whenever the query point lies strictly outside the
bounding box, and otherwise returns `true` iff no directed hull edge
`(hull[i], hull[(i+1) % H])` reports the exterior-side orientation
(`Leftwards`); a `Collinear` edge result is uniformly allowed, so a point
exactly on the boundary counts as inside. -/
theorem c4_exact_test_characterization (poly : ConvexPoly) (p : Point)
    (h3 : 3 ≤ poly.hull.length) :
    isPointInPolygon poly p = true ↔
      (¬ (p.1 < poly.x_min ∨ poly.x_max < p.1 ∨ p.2 < poly.y_min ∨ poly.y_max < p.2) ∧
        ∀ j, j < poly.hull.length →
          Orientation.calc (poly.hull.getD j origin) p
            (poly.hull.getD ((j + 1) % poly.hull.length) origin) ≠
              Orientation.Leftwards) := by
  rw [isPointInPolygon]
  by_cases hb : p.1 < poly.x_min ∨ poly.x_max < p.1 ∨ p.2 < poly.y_min ∨ poly.y_max < p.2
  · rw [if_pos hb]
    constructor
    · intro hfalse
      cases hfalse
    · intro hall
      exact absurd hb hall.1
  · rw [if_neg hb]
    rw [edgeCheck_spec poly.hull p poly.hull.length 0 (by omega)]
    constructor
    · intro hall
      exact ⟨hb, fun j hj => hall j (Nat.zero_le _) hj⟩
    · intro hall j _ hj
      exact hall.2 j hj

/-- Witness for C4 at the square polygon and the interior point `(1,1)`. -/
theorem c4_exact_test_characterization_witness :
    isPointInPolygon sqPoly ((1 : ℝ), (1 : ℝ)) = true ↔
      (¬ ((1 : ℝ) < sqPoly.x_min ∨ sqPoly.x_max < (1 : ℝ) ∨ (1 : ℝ) < sqPoly.y_min ∨
          sqPoly.y_max < (1 : ℝ)) ∧
        ∀ j, j < sqPoly.hull.length →
          Orientation.calc (sqPoly.hull.getD j origin) ((1 : ℝ), (1 : ℝ))
            (sqPoly.hull.getD ((j + 1) % sqPoly.hull.length) origin) ≠
              Orientation.Leftwards) :=
  c4_exact_test_characterization sqPoly ((1 : ℝ), (1 : ℝ)) (by norm_num [sqPoly])

lemma goodStack_tail (x : Point) (l : List Point) (h : GoodStack (x :: l)) : GoodStack l := by
  match l with
  | [] => trivial
  | [y] => trivial
  | y :: z :: r => exact h.2

lemma goodStack_pop (p : Point) : ∀ s, GoodStack s → GoodStack (p :: popWhile p s) := by
  intro s
  induction s with
  | nil => intro _; trivial
  | cons b t ih =>
    cases t with
    | nil => intro _; trivial
    | cons a rest =>
      intro hg
      rw [popWhile]
      split
      case isTrue h => exact ih (goodStack_tail b _ hg)
      case isFalse h => exact ⟨h, hg⟩

lemma scanAux_good : ∀ (l stack : List Point), GoodStack stack → GoodStack (scanAux stack l) := by
  intro l
  induction l with
  | nil => intro stack h; exact h
  | cons q rest ih =>
    intro stack h
    exact ih _ (goodStack_pop q stack h)

lemma goodStack_getD : ∀ (s : List Point), GoodStack s → ∀ i, i + 2 < s.length →
    Orientation.calc (s.getD (i + 2) origin) (s.getD (i + 1) origin) (s.getD i origin) ≠
      Orientation.Rightwards := by
  intro s
  induction s with
  | nil =>
    intro _ i hi
    simp at hi
  | cons c t ih =>
    intro hg i hi
    cases i with
    | zero =>
      cases t with
      | nil => simp at hi
      | cons b t2 =>
        cases t2 with
        | nil =>
          simp at hi
        | cons a rest =>
          exact hg.1
    | succ m =>
      have ht : GoodStack t := goodStack_tail c t hg
      have hlen : m + 2 < t.length := by
        simp only [List.length_cons] at hi
        omega
      have h2 := ih ht m hlen
      show Orientation.calc (t.getD (m + 2) origin) (t.getD (m + 1) origin)
          (t.getD m origin) ≠ Orientation.Rightwards
      exact h2

/-- Every three consecutive vertices of the hull sequence produced by
the scan satisfy `Orientation::calc != Rightwards`: the pop condition
removes exactly the `Rightwards` turns. -/
lemma scan_no_right_turn (p0 : Point) (rest : List Point) :
    ∀ i, i + 2 < (grahamScan p0 rest).length →
      Orientation.calc ((grahamScan p0 rest).getD i origin)
        ((grahamScan p0 rest).getD (i + 1) origin)
        ((grahamScan p0 rest).getD (i + 2) origin) ≠ Orientation.Rightwards := by
  intro i hi
  have hgood : GoodStack (scanAux [p0] rest) := scanAux_good rest [p0] trivial
  rw [grahamScan] at hi ⊢
  have hlen : i + 2 < (scanAux [p0] rest).length := by simpa using hi
  have conv : ∀ j, j < (scanAux [p0] rest).length →
      (scanAux [p0] rest).reverse.getD j origin =
        (scanAux [p0] rest).getD ((scanAux [p0] rest).length - 1 - j) origin := by
    intro j hj
    rw [List.getD_eq_getElem _ _ (by simpa using hj), List.getD_eq_getElem _ _ (by omega)]
    exact List.getElem_reverse ..
  rw [conv i (by omega), conv (i + 1) (by omega), conv (i + 2) (by omega)]
  have hj : ((scanAux [p0] rest).length - 1 - (i + 2)) + 2 < (scanAux [p0] rest).length := by
    omega
  have hmain := goodStack_getD (scanAux [p0] rest) hgood
    ((scanAux [p0] rest).length - 1 - (i + 2)) hj
  have e1 : (scanAux [p0] rest).length - 1 - (i + 2) + 2 =
      (scanAux [p0] rest).length - 1 - i := by omega
  have e2 : (scanAux [p0] rest).length - 1 - (i + 2) + 1 =
      (scanAux [p0] rest).length - 1 - (i + 1) := by omega
  rw [e1, e2] at hmain
  exact hmain

lemma arctanNonneg (x : ℝ) (hx : 0 ≤ x) : 0 ≤ Real.arctan x := by
  rw [← Real.arctan_zero]
  exact Real.arctan_strictMono.monotone hx

lemma atan2_zero_x_pos_y (y : ℝ) (hy : 0 < y) : atan2 y 0 = π / 2 := by
  unfold atan2
  rw [if_neg (lt_irrefl 0), if_neg (lt_irrefl 0), if_pos hy]

lemma orientDet_sps (s p : Point) : orientDet s p s = 0 := by
  unfold orientDet
  ring

lemma orientDet_wrap1 (x y c : Point) :
    orientDet x y c = (x.1 - c.1) * (y.2 - c.2) - (x.2 - c.2) * (y.1 - c.1) := by
  unfold orientDet
  ring

lemma orientDet_wrap2 (y c b : Point) :
    orientDet y c b = (b.1 - c.1) * (y.2 - c.2) - (b.2 - c.2) * (y.1 - c.1) := by
  unfold orientDet
  ring

lemma calc_ne_rightwards_of_nonneg (s p e : Point) (h : 0 ≤ orientDet s p e) :
    Orientation.calc s p e ≠ Orientation.Rightwards := by
  unfold Orientation.calc
  rw [if_neg (not_lt.mpr h)]
  split
  · exact fun hc => by cases hc
  · exact fun hc => by cases hc

/-- The key geometric fact behind the wrap-around triples: for two
vectors in the closed upper half plane, ordered by `angle` (which for
such vectors lies in `[0, π]`), the cross product is nonnegative. -/
lemma cross_nonneg_of_angle_le (u v : Point) (hu : 0 ≤ u.2) (hv : 0 ≤ v.2)
    (h : angle u ≤ angle v) : 0 ≤ u.1 * v.2 - u.2 * v.1 := by
  rcases lt_trichotomy 0 u.1 with hu1 | hu1 | hu1
  · rcases lt_trichotomy 0 v.1 with hv1 | hv1 | hv1
    · have hau : angle u = Real.arctan (u.2 / u.1) := by
        have h1 : atan2 u.2 u.1 = Real.arctan (u.2 / u.1) := atan2_pos_x _ _ hu1
        rw [angle_of_nonneg _ (by rw [h1]; exact arctanNonneg _ (div_nonneg hu hu1.le)), h1]
      have hav : angle v = Real.arctan (v.2 / v.1) := by
        have h1 : atan2 v.2 v.1 = Real.arctan (v.2 / v.1) := atan2_pos_x _ _ hv1
        rw [angle_of_nonneg _ (by rw [h1]; exact arctanNonneg _ (div_nonneg hv hv1.le)), h1]
      rw [hau, hav] at h
      have hdiv := (div_le_div_iff₀ hu1 hv1).mp (Real.arctan_strictMono.le_iff_le.mp h)
      nlinarith [hdiv]
    · have h1 : 0 ≤ u.1 * v.2 := mul_nonneg hu1.le hv
      have h2 : u.2 * v.1 = 0 := by rw [← hv1, mul_zero]
      linarith
    · have h1 : 0 ≤ u.1 * v.2 := mul_nonneg hu1.le hv
      have h2 : u.2 * v.1 ≤ 0 := mul_nonpos_of_nonneg_of_nonpos hu hv1.le
      linarith
  · rcases eq_or_lt_of_le hu with hu2 | hu2
    · rw [← hu1, ← hu2]
      norm_num
    · rcases lt_trichotomy 0 v.1 with hv1 | hv1 | hv1
      · exfalso
        have hau : angle u = π / 2 := by
          have h1 : atan2 u.2 u.1 = π / 2 := by rw [← hu1]; exact atan2_zero_x_pos_y _ hu2
          rw [angle_of_nonneg _ (by rw [h1]; positivity), h1]
        have hav : angle v = Real.arctan (v.2 / v.1) := by
          have h1 : atan2 v.2 v.1 = Real.arctan (v.2 / v.1) := atan2_pos_x _ _ hv1
          rw [angle_of_nonneg _ (by rw [h1]; exact arctanNonneg _ (div_nonneg hv hv1.le)), h1]
        have hlt := Real.arctan_lt_pi_div_two (v.2 / v.1)
        rw [hau, hav] at h
        linarith
      · rw [← hu1, ← hv1]
        norm_num
      · have h1 : u.1 * v.2 = 0 := by rw [← hu1, zero_mul]
        have h2 : u.2 * v.1 ≤ 0 := mul_nonpos_of_nonneg_of_nonpos hu hv1.le
        linarith
  · have hau : angle u = Real.arctan (u.2 / u.1) + π := by
      have h1 : atan2 u.2 u.1 = Real.arctan (u.2 / u.1) + π := atan2_neg_x_nonneg_y _ _ hu1 hu
      have h2 : 0 ≤ atan2 u.2 u.1 := by
        rw [h1]
        have h3 := Real.neg_pi_div_two_lt_arctan (u.2 / u.1)
        have h4 := Real.pi_pos
        linarith
      rw [angle_of_nonneg _ h2, h1]
    have hgtu : π / 2 < angle u := by
      rw [hau]
      have h3 := Real.neg_pi_div_two_lt_arctan (u.2 / u.1)
      linarith
    rcases lt_trichotomy 0 v.1 with hv1 | hv1 | hv1
    · exfalso
      have hav : angle v = Real.arctan (v.2 / v.1) := by
        have h1 : atan2 v.2 v.1 = Real.arctan (v.2 / v.1) := atan2_pos_x _ _ hv1
        rw [angle_of_nonneg _ (by rw [h1]; exact arctanNonneg _ (div_nonneg hv hv1.le)), h1]
      have hlt := Real.arctan_lt_pi_div_two (v.2 / v.1)
      rw [hav] at h
      linarith
    · rcases eq_or_lt_of_le hv with hv2 | hv2
      · rw [← hv1, ← hv2]
        norm_num
      · exfalso
        have hav : angle v = π / 2 := by
          have h1 : atan2 v.2 v.1 = π / 2 := by rw [← hv1]; exact atan2_zero_x_pos_y _ hv2
          rw [angle_of_nonneg _ (by rw [h1]; positivity), h1]
        rw [hav] at h
        linarith
    · have hav : angle v = Real.arctan (v.2 / v.1) + π := by
        have h1 : atan2 v.2 v.1 = Real.arctan (v.2 / v.1) + π := atan2_neg_x_nonneg_y _ _ hv1 hv
        have h2 : 0 ≤ atan2 v.2 v.1 := by
          rw [h1]
          have h3 := Real.neg_pi_div_two_lt_arctan (v.2 / v.1)
          have h4 := Real.pi_pos
          linarith
        rw [angle_of_nonneg _ h2, h1]
      rw [hau, hav] at h
      have hdiv : u.2 / u.1 ≤ v.2 / v.1 :=
        Real.arctan_strictMono.le_iff_le.mp (by linarith)
      have hne1 : u.1 ≠ 0 := ne_of_lt hu1
      have hne2 : v.1 ≠ 0 := ne_of_lt hv1
      have hprod : 0 < u.1 * v.1 := mul_pos_of_neg_of_neg hu1 hv1
      have h2 := mul_le_mul_of_nonneg_right hdiv hprod.le
      have e1 : u.2 / u.1 * (u.1 * v.1) = u.2 * v.1 := by
        field_simp
        ring
      have e2 : v.2 / v.1 * (u.1 * v.1) = v.2 * u.1 := by
        field_simp
        ring
      rw [e1, e2] at h2
      nlinarith [h2]

lemma cross_vec_nonneg (c x y : Point) (hx : c.2 ≤ x.2) (hy : c.2 ≤ y.2)
    (h : angle (x - c) ≤ angle (y - c)) :
    0 ≤ (x.1 - c.1) * (y.2 - c.2) - (x.2 - c.2) * (y.1 - c.1) := by
  have h1 := cross_nonneg_of_angle_le (x - c) (y - c)
    (by rw [Prod.snd_sub]; linarith) (by rw [Prod.snd_sub]; linarith) h
  simp only [Prod.fst_sub, Prod.snd_sub] at h1
  exact h1

lemma ysorted_pairwise (points : List Point) :
    (ysorted points).Pairwise fun a b => a.2 ≤ b.2 := by
  haveI : IsTotal Point fun a b => a.2 ≤ b.2 := ⟨fun a b => le_total _ _⟩
  haveI : IsTrans Point fun a b => a.2 ≤ b.2 := ⟨fun _ _ _ hab hbc => le_trans hab hbc⟩
  exact List.sorted_insertionSort _ _

lemma anglesorted_pairwise (p0 : Point) (rest : List Point) :
    (anglesorted p0 rest).Pairwise fun a b => angle (a - p0) ≤ angle (b - p0) := by
  haveI : IsTotal Point fun a b => angle (a - p0) ≤ angle (b - p0) :=
    ⟨fun a b => le_total _ _⟩
  haveI : IsTrans Point fun a b => angle (a - p0) ≤ angle (b - p0) :=
    ⟨fun _ _ _ hab hbc => le_trans hab hbc⟩
  exact List.sorted_insertionSort _ _

lemma ysorted_head_le (points : List Point) (p0 : Point) (rest : List Point)
    (h : ysorted points = p0 :: rest) : ∀ q ∈ rest, p0.2 ≤ q.2 := by
  have hp := ysorted_pairwise points
  rw [h, List.pairwise_cons] at hp
  exact hp.1

lemma getD_mem (t : List Point) (i : ℕ) (hi : i < t.length) : t.getD i origin ∈ t := by
  rw [List.getD_eq_getElem _ _ hi]
  exact List.getElem_mem _

lemma pairwise_getD (t : List Point) (r : Point → Point → Prop) (h : t.Pairwise r)
    (i j : ℕ) (hij : i < j) (hj : j < t.length) :
    r (t.getD i origin) (t.getD j origin) := by
  rw [List.getD_eq_getElem _ _ (by omega), List.getD_eq_getElem _ _ hj]
  exact List.pairwise_iff_get.mp h ⟨i, by omega⟩ ⟨j, hj⟩ hij

lemma popWhile_ne_nil (p : Point) : ∀ l : List Point, l ≠ [] → popWhile p l ≠ [] := by
  intro l
  induction l with
  | nil => intro hl; exact absurd rfl hl
  | cons b t ih =>
    intro _
    cases t with
    | nil => exact List.cons_ne_nil _ _
    | cons a rest =>
      rw [popWhile]
      split
      · exact ih (List.cons_ne_nil _ _)
      · exact List.cons_ne_nil _ _

lemma popWhile_getLastQ (p : Point) : ∀ l : List Point, (popWhile p l).getLast? = l.getLast? := by
  intro l
  induction l with
  | nil => rfl
  | cons b t ih =>
    cases t with
    | nil => rfl
    | cons a rest =>
      rw [popWhile]
      split
      · rw [ih, List.getLast?_cons_cons]
      · rfl

lemma tail_append_ne (x y : List Point) (hx : x ≠ []) : (x ++ y).tail = x.tail ++ y := by
  cases x with
  | nil => exact absurd rfl hx
  | cons a t => rfl

/-- The popped stack, read bottom-up without its bottom element, is a
sublist of the original one: popping only removes elements from the top. -/
lemma popWhile_body (p : Point) : ∀ stack : List Point,
    List.Sublist (popWhile p stack).reverse.tail stack.reverse.tail := by
  intro stack
  induction stack with
  | nil => exact List.Sublist.refl _
  | cons b t ih =>
    cases t with
    | nil => exact List.Sublist.refl _
    | cons a rest =>
      rw [popWhile]
      split
      · refine ih.trans ?_
        have e : (b :: a :: rest).reverse.tail = (a :: rest).reverse.tail ++ [b] := by
          rw [show (b :: a :: rest).reverse = (a :: rest).reverse ++ [b] from
            List.reverse_cons b (a :: rest)]
          exact tail_append_ne _ _ (by simp)
        rw [e]
        exact List.sublist_append_left _ _
      · exact List.Sublist.refl _

lemma scanAux_ne_nil : ∀ (l stack : List Point), stack ≠ [] → scanAux stack l ≠ [] := by
  intro l
  induction l with
  | nil => intro stack h; exact h
  | cons q rest ih =>
    intro stack _
    exact ih _ (List.cons_ne_nil _ _)

lemma scanAux_getLastQ : ∀ (l stack : List Point), stack ≠ [] →
    (scanAux stack l).getLast? = stack.getLast? := by
  intro l
  induction l with
  | nil => intro stack _; rfl
  | cons q rest ih =>
    intro stack h
    have h2 : popWhile q stack ≠ [] := popWhile_ne_nil q stack h
    have h3 : (scanAux (q :: popWhile q stack) rest).getLast? =
        (q :: popWhile q stack).getLast? := ih _ (List.cons_ne_nil _ _)
    rw [show scanAux stack (q :: rest) = scanAux (q :: popWhile q stack) rest from rfl, h3]
    cases hpw : popWhile q stack with
    | nil => exact absurd hpw h2
    | cons x xs =>
      rw [List.getLast?_cons_cons, ← hpw, popWhile_getLastQ]

/-- The scan stack, read bottom-up without its bottom element, is a
sublist of (the processed part of) the input sequence. -/
lemma scanAux_body : ∀ (l stack : List Point), stack ≠ [] →
    List.Sublist (scanAux stack l).reverse.tail (stack.reverse.tail ++ l) := by
  intro l
  induction l with
  | nil =>
    intro stack _
    rw [show scanAux stack [] = stack from rfl, List.append_nil]
  | cons q rest ih =>
    intro stack h
    have hpop : popWhile q stack ≠ [] := popWhile_ne_nil q stack h
    have step := ih (q :: popWhile q stack) (List.cons_ne_nil _ _)
    have e : (q :: popWhile q stack).reverse.tail = (popWhile q stack).reverse.tail ++ [q] := by
      rw [List.reverse_cons]
      exact tail_append_ne _ _ (by rwa [ne_eq, List.reverse_eq_nil_iff])
    rw [e] at step
    have hsub : List.Sublist ((popWhile q stack).reverse.tail ++ ([q] ++ rest))
        (stack.reverse.tail ++ ([q] ++ rest)) := (popWhile_body q stack).append_right _
    rw [List.append_assoc] at step
    exact step.trans hsub

lemma grahamScan_ne_nil (p0 : Point) (as : List Point) : grahamScan p0 as ≠ [] := by
  rw [grahamScan, ne_eq, List.reverse_eq_nil_iff]
  exact scanAux_ne_nil as [p0] (List.cons_ne_nil _ _)

lemma grahamScan_headQ (p0 : Point) (as : List Point) :
    (grahamScan p0 as).head? = some p0 := by
  rw [grahamScan, List.head?_reverse, scanAux_getLastQ as [p0] (List.cons_ne_nil _ _)]
  rfl

lemma grahamScan_tail_sublist (p0 : Point) (as : List Point) :
    List.Sublist (grahamScan p0 as).tail as := by
  have h := scanAux_body as [p0] (List.cons_ne_nil _ _)
  rw [grahamScan]
  simpa using h

lemma shiftHull_getD (hull : List Point) (k : ℕ) (hk : k < hull.length) :
    (shiftHull hull).getD k origin = hull.getD ((k + 3) % hull.length) origin := by
  have hk2 : k < (shiftHull hull).length := by
    rw [shiftHull_length]
    exact hk
  rw [List.getD_eq_getElem _ _ hk2]
  simp only [shiftHull, List.getElem_map, List.getElem_range]

/-- Cyclic winding property of the raw scan output: for an angle-sorted
input in the upper half plane around `p0`, every cyclically consecutive
vertex triple of the scan hull — the wrap-around triples through the
pivot included — is never a `Rightwards` turn. -/
lemma grahamScan_cyclic (p0 : Point) (as : List Point)
    (hsorted : as.Pairwise fun a b => angle (a - p0) ≤ angle (b - p0))
    (hy : ∀ q ∈ as, p0.2 ≤ q.2) (j : ℕ) :
    Orientation.calc ((grahamScan p0 as).getD (j % (grahamScan p0 as).length) origin)
      ((grahamScan p0 as).getD ((j + 1) % (grahamScan p0 as).length) origin)
      ((grahamScan p0 as).getD ((j + 2) % (grahamScan p0 as).length) origin) ≠
      Orientation.Rightwards := by
  have hne := grahamScan_ne_nil p0 as
  have hhead := grahamScan_headQ p0 as
  have htail := grahamScan_tail_sublist p0 as
  have hscan := scan_no_right_turn p0 as
  cases hH : grahamScan p0 as with
  | nil => exact absurd hH hne
  | cons h0 t =>
    rw [hH] at hhead htail hscan
    have hh0 : h0 = p0 := by simpa using hhead
    rw [hh0] at htail hscan ⊢
    have httail : List.Sublist t as := htail
    have htsorted : t.Pairwise fun a b => angle (a - p0) ≤ angle (b - p0) :=
      hsorted.sublist httail
    have hty : ∀ q ∈ t, p0.2 ≤ q.2 := fun q hq => hy q (httail.subset hq)
    rw [show (j + 1) % (p0 :: t).length = (j % (p0 :: t).length + 1) % (p0 :: t).length from
        (Nat.mod_add_mod j (p0 :: t).length 1).symm,
      show (j + 2) % (p0 :: t).length = (j % (p0 :: t).length + 2) % (p0 :: t).length from
        (Nat.mod_add_mod j (p0 :: t).length 2).symm]
    obtain ⟨k, hklt, hkeq⟩ : ∃ k, k < (p0 :: t).length ∧ j % (p0 :: t).length = k :=
      ⟨j % (p0 :: t).length,
        Nat.mod_lt _ (List.length_pos.mpr (List.cons_ne_nil _ _)), rfl⟩
    rw [hkeq]
    have hlen : (p0 :: t).length = t.length + 1 := rfl
    rcases Nat.lt_or_ge (p0 :: t).length 3 with hsmall | hbig
    · rcases (by omega : (p0 :: t).length = 1 ∨ (p0 :: t).length = 2) with hl | hl
      · have ht : t = [] := List.length_eq_zero.mp (by omega)
        subst ht
        have hk0 : k = 0 := by omega
        subst hk0
        rw [show (0 + 1) % ([p0] : List Point).length = 0 by simp,
          show (0 + 2) % ([p0] : List Point).length = 0 by simp,
          show ([p0] : List Point).getD 0 origin = p0 by simp]
        exact calc_ne_rightwards_of_nonneg _ _ _ (le_of_eq (orientDet_sps p0 p0).symm)
      · obtain ⟨t1, ht⟩ : ∃ t1, t = [t1] := by
          cases t with
          | nil => exact absurd hl (by simp)
          | cons a t' =>
            cases t' with
            | nil => exact ⟨a, rfl⟩
            | cons b t'' =>
              have h3 : (p0 :: a :: b :: t'').length = t''.length + 3 := rfl
              omega
        subst ht
        rcases (by omega : k = 0 ∨ k = 1) with rfl | rfl
        · rw [show (0 + 1) % ([p0, t1] : List Point).length = 1 by simp,
            show (0 + 2) % ([p0, t1] : List Point).length = 0 by simp,
            show ([p0, t1] : List Point).getD 0 origin = p0 by simp,
            show ([p0, t1] : List Point).getD 1 origin = t1 by simp]
          exact calc_ne_rightwards_of_nonneg _ _ _ (le_of_eq (orientDet_sps p0 t1).symm)
        · rw [show (1 + 1) % ([p0, t1] : List Point).length = 0 by simp,
            show (1 + 2) % ([p0, t1] : List Point).length = 1 by simp,
            show ([p0, t1] : List Point).getD 0 origin = p0 by simp,
            show ([p0, t1] : List Point).getD 1 origin = t1 by simp]
          exact calc_ne_rightwards_of_nonneg _ _ _ (le_of_eq (orientDet_sps t1 p0).symm)
    · rcases (by omega : k + 2 < (p0 :: t).length ∨ k + 2 = (p0 :: t).length ∨
          k + 1 = (p0 :: t).length) with hcase | hcase | hcase
      · rw [Nat.mod_eq_of_lt (by omega), Nat.mod_eq_of_lt (by omega)]
        exact hscan k hcase
      · obtain ⟨m, rfl⟩ : ∃ m, k = m + 1 := ⟨k - 1, by omega⟩
        rw [Nat.mod_eq_of_lt (by omega : m + 1 + 1 < (p0 :: t).length), hcase, Nat.mod_self]
        show Orientation.calc (t.getD m origin) (t.getD (m + 1) origin) p0 ≠
          Orientation.Rightwards
        refine calc_ne_rightwards_of_nonneg _ _ _ ?_
        rw [orientDet_wrap1]
        exact cross_vec_nonneg p0 (t.getD m origin) (t.getD (m + 1) origin)
          (hty _ (getD_mem t m (by omega))) (hty _ (getD_mem t (m + 1) (by omega)))
          (pairwise_getD t _ htsorted m (m + 1) (by omega) (by omega))
      · obtain ⟨m, rfl⟩ : ∃ m, k = m + 1 := ⟨k - 1, by omega⟩
        rw [show (m + 1 + 1) % (p0 :: t).length = 0 from by rw [hcase]; exact Nat.mod_self _,
          show (m + 1 + 2) % (p0 :: t).length = 1 from by
            rw [show m + 1 + 2 = (p0 :: t).length + 1 from by omega, Nat.add_mod_left]
            exact Nat.mod_eq_of_lt (by omega)]
        show Orientation.calc (t.getD m origin) p0 (t.getD 0 origin) ≠
          Orientation.Rightwards
        refine calc_ne_rightwards_of_nonneg _ _ _ ?_
        rw [orientDet_wrap2]
        exact cross_vec_nonneg p0 (t.getD 0 origin) (t.getD m origin)
          (hty _ (getD_mem t 0 (by omega))) (hty _ (getD_mem t m (by omega)))
          (pairwise_getD t _ htsorted 0 m (by omega) (by omega))

/-- C5 (amended): for every polygon returned by `ConvexPoly::new`, every
three cyclically consecutive hull vertices — the wrap-around triples of
the rotated hull included — turn in the one fixed winding sense in the
weak sense that `Orientation::calc` on them never returns `Rightwards`;
but a genuine turn at every vertex is not guaranteed: the scan pops only
on `Rightwards`, so three cyclically consecutive hull vertices may be
`Collinear` (see the counterexample). -/
theorem c5_hull_cyclic_winding (points : List Point) (poly : ConvexPoly)
    (h : convexPolyNew points = some poly) (i : ℕ) :
    Orientation.calc (poly.hull.getD (i % poly.hull.length) origin)
      (poly.hull.getD ((i + 1) % poly.hull.length) origin)
      (poly.hull.getD ((i + 2) % poly.hull.length) origin) ≠ Orientation.Rightwards := by
  rw [convexPolyNew] at h
  cases hys : ysorted points with
  | nil => rw [hys] at h; cases h
  | cons p0 rest =>
    rw [hys] at h
    simp only [Option.some.injEq] at h
    have hhull : poly.hull = shiftHull (grahamScan p0 (anglesorted p0 rest)) := by
      rw [← h]
    have hy : ∀ q ∈ anglesorted p0 rest, p0.2 ≤ q.2 := fun q hq =>
      ysorted_head_le points p0 rest hys q ((List.perm_insertionSort _ rest).mem_iff.mp hq)
    have hcyc := grahamScan_cyclic p0 (anglesorted p0 rest) (anglesorted_pairwise p0 rest) hy
    have hpos : 0 < (grahamScan p0 (anglesorted p0 rest)).length :=
      List.length_pos.mpr (grahamScan_ne_nil p0 (anglesorted p0 rest))
    rw [hhull, shiftHull_length]
    rw [shiftHull_getD _ _ (Nat.mod_lt _ hpos), shiftHull_getD _ _ (Nat.mod_lt _ hpos),
      shiftHull_getD _ _ (Nat.mod_lt _ hpos)]
    simp only [Nat.mod_add_mod]
    exact hcyc (i + 3)

/-- Witness for C5 (amended): the polygon built from `col3`, at `i = 0`. -/
theorem c5_hull_cyclic_winding_witness :
    Orientation.calc (col3Poly.hull.getD (0 % col3Poly.hull.length) origin)
      (col3Poly.hull.getD ((0 + 1) % col3Poly.hull.length) origin)
      (col3Poly.hull.getD ((0 + 2) % col3Poly.hull.length) origin) ≠
      Orientation.Rightwards :=
  c5_hull_cyclic_winding col3 col3Poly convexPolyNew_col3 0

lemma ysorted_inp5 : ysorted inp5 = inp5 := by
  rw [inp5]
  norm_num [ysorted, List.insertionSort, List.orderedInsert,
    -Prod.mk_one_one, -Prod.mk_zero_zero]

lemma anglesorted_inp5 :
    anglesorted ((0 : ℝ), (0 : ℝ))
        [((1 : ℝ), (0 : ℝ)), ((2 : ℝ), (0 : ℝ)), ((1 : ℝ), (1 : ℝ))] =
      [((1 : ℝ), (0 : ℝ)), ((2 : ℝ), (0 : ℝ)), ((1 : ℝ), (1 : ℝ))] := by
  norm_num [anglesorted, List.insertionSort, List.orderedInsert, Prod.mk_sub_mk,
    angle_one_zero, angle_two_zero, angle_one_one, zero_le_pi4,
    -Prod.mk_one_one, -Prod.mk_zero_zero]

lemma grahamScan_inp5 :
    grahamScan ((0 : ℝ), (0 : ℝ))
        [((1 : ℝ), (0 : ℝ)), ((2 : ℝ), (0 : ℝ)), ((1 : ℝ), (1 : ℝ))] = inp5 := by
  rw [inp5]
  norm_num [grahamScan, scanAux, popWhile, Orientation.calc, orientDet,
    collinear_ne_rightwards, leftwards_ne_rightwards,
    -Prod.mk_one_one, -Prod.mk_zero_zero]

lemma hull_inp5 :
    (convexPolyNew inp5).map ConvexPoly.hull =
      some [((1 : ℝ), (1 : ℝ)), ((0 : ℝ), (0 : ℝ)), ((1 : ℝ), (0 : ℝ)), ((2 : ℝ), (0 : ℝ))] := by
  rw [convexPolyNew, ysorted_inp5]
  rw [show inp5 = ((0 : ℝ), (0 : ℝ)) ::
    [((1 : ℝ), (0 : ℝ)), ((2 : ℝ), (0 : ℝ)), ((1 : ℝ), (1 : ℝ))] from rfl]
  simp only [anglesorted_inp5, grahamScan_inp5]
  rfl

/-- Counterexample to C5 as stated: the input `{(0,0),(1,0),(2,0),(1,1)}`
contains three non-collinear points (so it is a valid input), yet the
hull returned by `ConvexPoly::new` contains three cyclically consecutive
vertices `(0,0), (1,0), (2,0)` that are collinear — not a genuine turn. -/
theorem c5_counterexample :
    (convexPolyNew inp5).map ConvexPoly.hull =
      some [((1 : ℝ), (1 : ℝ)), ((0 : ℝ), (0 : ℝ)), ((1 : ℝ), (0 : ℝ)), ((2 : ℝ), (0 : ℝ))] ∧
    Orientation.calc ((0 : ℝ), (0 : ℝ)) ((1 : ℝ), (0 : ℝ)) ((2 : ℝ), (0 : ℝ)) =
      Orientation.Collinear ∧
    Orientation.calc ((0 : ℝ), (0 : ℝ)) ((2 : ℝ), (0 : ℝ)) ((1 : ℝ), (1 : ℝ)) ≠
      Orientation.Collinear := by
  refine ⟨hull_inp5, ?_, ?_⟩
  · norm_num [Orientation.calc, orientDet, -Prod.mk_one_one, -Prod.mk_zero_zero]
  · norm_num [Orientation.calc, orientDet, -Prod.mk_one_one, -Prod.mk_zero_zero]
    simp

lemma ysorted_sq : ysorted sqInput = sqInput := by
  rw [sqInput]
  norm_num [ysorted, List.insertionSort, List.orderedInsert,
    -Prod.mk_one_one, -Prod.mk_zero_zero]

lemma anglesorted_sq :
    anglesorted ((0 : ℝ), (0 : ℝ))
        [((4 : ℝ), (0 : ℝ)), ((4 : ℝ), (4 : ℝ)), ((0 : ℝ), (4 : ℝ))] =
      [((4 : ℝ), (0 : ℝ)), ((4 : ℝ), (4 : ℝ)), ((0 : ℝ), (4 : ℝ))] := by
  norm_num [anglesorted, List.insertionSort, List.orderedInsert, Prod.mk_sub_mk,
    angle_four_zero, angle_four_four, angle_zero_four, zero_le_pi4, pi4_le_pi2,
    -Prod.mk_one_one, -Prod.mk_zero_zero]

lemma grahamScan_sq :
    grahamScan ((0 : ℝ), (0 : ℝ))
        [((4 : ℝ), (0 : ℝ)), ((4 : ℝ), (4 : ℝ)), ((0 : ℝ), (4 : ℝ))] =
      [((0 : ℝ), (0 : ℝ)), ((4 : ℝ), (0 : ℝ)), ((4 : ℝ), (4 : ℝ)), ((0 : ℝ), (4 : ℝ))] := by
  norm_num [grahamScan, scanAux, popWhile, Orientation.calc, orientDet,
    collinear_ne_rightwards, leftwards_ne_rightwards,
    -Prod.mk_one_one, -Prod.mk_zero_zero]

lemma convexPolyNew_sq : convexPolyNew sqInput = some sqPoly := by
  rw [convexPolyNew, ysorted_sq]
  rw [show sqInput = ((0 : ℝ), (0 : ℝ)) ::
    [((4 : ℝ), (0 : ℝ)), ((4 : ℝ), (4 : ℝ)), ((0 : ℝ), (4 : ℝ))] from rfl]
  simp only [anglesorted_sq, grahamScan_sq]
  rw [show shiftHull
    [((0 : ℝ), (0 : ℝ)), ((4 : ℝ), (0 : ℝ)), ((4 : ℝ), (4 : ℝ)), ((0 : ℝ), (4 : ℝ))] =
    [((0 : ℝ), (4 : ℝ)), ((0 : ℝ), (0 : ℝ)), ((4 : ℝ), (0 : ℝ)), ((4 : ℝ), (4 : ℝ))] from rfl]
  simp only [sqPoly, sqInput, Option.some.injEq, ConvexPoly.mk.injEq]
  norm_num [listMin, listMax, -Prod.mk_one_one, -Prod.mk_zero_zero]

lemma exact_sq : isPointInPolygon sqPoly ((2 : ℝ), (4 : ℝ)) = true := by
  have hc0 : ¬ Orientation.calc ((0 : ℝ), (4 : ℝ)) ((2 : ℝ), (4 : ℝ)) ((0 : ℝ), (0 : ℝ)) =
      Orientation.Leftwards := by
    norm_num [Orientation.calc, orientDet, rightwards_ne_leftwards,
      -Prod.mk_one_one, -Prod.mk_zero_zero]
  have hc1 : ¬ Orientation.calc ((0 : ℝ), (0 : ℝ)) ((2 : ℝ), (4 : ℝ)) ((4 : ℝ), (0 : ℝ)) =
      Orientation.Leftwards := by
    norm_num [Orientation.calc, orientDet, rightwards_ne_leftwards,
      -Prod.mk_one_one, -Prod.mk_zero_zero]
  have hc2 : ¬ Orientation.calc ((4 : ℝ), (0 : ℝ)) ((2 : ℝ), (4 : ℝ)) ((4 : ℝ), (4 : ℝ)) =
      Orientation.Leftwards := by
    norm_num [Orientation.calc, orientDet, rightwards_ne_leftwards,
      -Prod.mk_one_one, -Prod.mk_zero_zero]
  have hc3 : ¬ Orientation.calc ((4 : ℝ), (4 : ℝ)) ((2 : ℝ), (4 : ℝ)) ((0 : ℝ), (4 : ℝ)) =
      Orientation.Leftwards := by
    norm_num [Orientation.calc, orientDet, collinear_ne_leftwards,
      -Prod.mk_one_one, -Prod.mk_zero_zero]
  rw [isPointInPolygon, if_neg (by norm_num [sqPoly])]
  rw [edgeCheck, dif_pos (show 0 < sqPoly.hull.length by norm_num [sqPoly])]
  rw [show sqPoly.hull.getD 0 origin = ((0 : ℝ), (4 : ℝ)) from rfl,
    show sqPoly.hull.getD ((0 + 1) % sqPoly.hull.length) origin = ((0 : ℝ), (0 : ℝ)) from rfl,
    if_neg hc0]
  rw [edgeCheck, dif_pos (show 0 + 1 < sqPoly.hull.length by norm_num [sqPoly])]
  rw [show sqPoly.hull.getD (0 + 1) origin = ((0 : ℝ), (0 : ℝ)) from rfl,
    show sqPoly.hull.getD ((0 + 1 + 1) % sqPoly.hull.length) origin = ((4 : ℝ), (0 : ℝ))
      from rfl,
    if_neg hc1]
  rw [edgeCheck, dif_pos (show 0 + 1 + 1 < sqPoly.hull.length by norm_num [sqPoly])]
  rw [show sqPoly.hull.getD (0 + 1 + 1) origin = ((4 : ℝ), (0 : ℝ)) from rfl,
    show sqPoly.hull.getD ((0 + 1 + 1 + 1) % sqPoly.hull.length) origin = ((4 : ℝ), (4 : ℝ))
      from rfl,
    if_neg hc2]
  rw [edgeCheck, dif_pos (show 0 + 1 + 1 + 1 < sqPoly.hull.length by norm_num [sqPoly])]
  rw [show sqPoly.hull.getD (0 + 1 + 1 + 1) origin = ((4 : ℝ), (4 : ℝ)) from rfl,
    show sqPoly.hull.getD ((0 + 1 + 1 + 1 + 1) % sqPoly.hull.length) origin =
      ((0 : ℝ), (4 : ℝ)) from rfl,
    if_neg hc3]
  rw [edgeCheck, dif_neg (show ¬ (0 + 1 + 1 + 1 + 1 < sqPoly.hull.length) by
    norm_num [sqPoly])]

lemma bsa_sq :
    binarySearchAngles [((0 : ℝ), (0 : ℝ)), ((4 : ℝ), (0 : ℝ)), ((4 : ℝ), (4 : ℝ))]
      ((4 : ℝ) / 3, (4 : ℝ) / 3)
      (Real.arctan 4 - (π - Real.arctan 2) + 2 * π) (π - Real.arctan 2) 4 0 2 =
      BsaOut.found 2 := by
  have ha2 := arctanPos 2 (by norm_num)
  have ha4 := arctanPos 4 (by norm_num)
  have hah := arctanPos (1 / 2) (by norm_num)
  have hb2 := Real.arctan_lt_pi_div_two 2
  have hb4 := Real.arctan_lt_pi_div_two 4
  have hbh := Real.arctan_lt_pi_div_two (1 / 2)
  have hpi := Real.pi_pos
  have ha14 : π / 4 < Real.arctan 4 := by
    rw [← Real.arctan_one]
    exact Real.arctan_strictMono (by norm_num)
  have hsub1 : (((4 : ℝ), (0 : ℝ)) : Point) - ((4 : ℝ) / 3, (4 : ℝ) / 3) =
      (((8 : ℝ) / 3, (-(4 / 3) : ℝ))) := by
    rw [Prod.mk_sub_mk]
    norm_num
  have hsub2 : (((4 : ℝ), (4 : ℝ)) : Point) - ((4 : ℝ) / 3, (4 : ℝ) / 3) =
      (((8 : ℝ) / 3, (8 : ℝ) / 3)) := by
    rw [Prod.mk_sub_mk]
    norm_num
  rw [bsa_succ, if_neg (by omega), if_neg (by omega), if_neg (by omega)]
  rw [show ((2 + 0) / 2 : ℕ) = 1 from rfl]
  rw [show ([((0 : ℝ), (0 : ℝ)), ((4 : ℝ), (0 : ℝ)), ((4 : ℝ), (4 : ℝ))] :
    List Point).getD 1 origin = ((4 : ℝ), (0 : ℝ)) from rfl]
  rw [hsub1, angle_se, wrappedAngleSub_of_nonneg _ _ (by linarith)]
  rw [if_neg (not_lt.mpr (by linarith)), if_neg (by omega)]
  rw [bsa_succ, if_neg (by omega), if_neg (by omega), if_pos (by omega)]
  rw [show ([((0 : ℝ), (0 : ℝ)), ((4 : ℝ), (0 : ℝ)), ((4 : ℝ), (4 : ℝ))] :
    List Point).getD 1 origin = ((4 : ℝ), (0 : ℝ)) from rfl]
  rw [show ([((0 : ℝ), (0 : ℝ)), ((4 : ℝ), (0 : ℝ)), ((4 : ℝ), (4 : ℝ))] :
    List Point).getD 2 origin = ((4 : ℝ), (4 : ℝ)) from rfl]
  rw [hsub1, hsub2, angle_se, angle_ne_big]
  rw [wrappedAngleSub_of_nonneg _ _ (by linarith), wrappedAngleSub_of_neg _ _ (by linarith)]
  rw [if_neg (not_lt.mpr ?hle)]
  case hle =>
    rw [abs_of_nonpos (by linarith), abs_of_nonpos (by linarith)]
    linarith

lemma fast_sq : isPointInPolygonFast sqPoly ((2 : ℝ), (4 : ℝ)) = some false := by
  rw [isPointInPolygonFast]
  simp only [show sqPoly.hull.getD 0 origin = ((0 : ℝ), (4 : ℝ)) from rfl,
    show sqPoly.hull.getD 1 origin = ((0 : ℝ), (0 : ℝ)) from rfl,
    show sqPoly.hull.getD 2 origin = ((4 : ℝ), (0 : ℝ)) from rfl,
    show sqPoly.hull.tail =
      [((0 : ℝ), (0 : ℝ)), ((4 : ℝ), (0 : ℝ)), ((4 : ℝ), (4 : ℝ))] from rfl,
    show sqPoly.hull.length = 4 from rfl]
  have ha2 := arctanPos 2 (by norm_num)
  have ha4 := arctanPos 4 (by norm_num)
  have hb2 := Real.arctan_lt_pi_div_two 2
  have hb4 := Real.arctan_lt_pi_div_two 4
  have hpi := Real.pi_pos
  have hcenter : ((((0 : ℝ) + 0 + 4) / 3 : ℝ), (((4 : ℝ) + 0 + 0) / 3 : ℝ)) =
      (((4 : ℝ) / 3 : ℝ), ((4 : ℝ) / 3 : ℝ)) := by
    norm_num
  rw [hcenter]
  rw [show (((2 : ℝ), (4 : ℝ)) : Point) - ((4 : ℝ) / 3, (4 : ℝ) / 3) =
      (((2 : ℝ) / 3, (8 : ℝ) / 3)) from by rw [Prod.mk_sub_mk]; norm_num]
  rw [show (((0 : ℝ), (4 : ℝ)) : Point) - ((4 : ℝ) / 3, (4 : ℝ) / 3) =
      ((-(4 / 3) : ℝ), ((8 : ℝ) / 3)) from by rw [Prod.mk_sub_mk]; norm_num]
  rw [angle_nw, angle_ne_third]
  rw [wrappedAngleSub_of_neg _ _ (by linarith)]
  rw [show ((4 : ℕ) - 2) = 2 from rfl]
  rw [bsa_sq]
  simp only []
  rw [show sqPoly.hull.getD 2 origin = ((4 : ℝ), (0 : ℝ)) from rfl,
    show ((2 + 1) % 4 : ℕ) = 3 from rfl,
    show ((2 + 2) % 4 : ℕ) = 0 from rfl,
    show sqPoly.hull.getD 3 origin = ((4 : ℝ), (4 : ℝ)) from rfl,
    show sqPoly.hull.getD 0 origin = ((0 : ℝ), (4 : ℝ)) from rfl]
  rw [show Orientation.calc ((4 : ℝ), (0 : ℝ)) ((2 : ℝ), (4 : ℝ)) ((4 : ℝ), (4 : ℝ)) =
      Orientation.Rightwards from by
    norm_num [Orientation.calc, orientDet, -Prod.mk_one_one, -Prod.mk_zero_zero]]
  rw [show Orientation.calc ((4 : ℝ), (4 : ℝ)) ((2 : ℝ), (4 : ℝ)) ((0 : ℝ), (4 : ℝ)) =
      Orientation.Collinear from by
    norm_num [Orientation.calc, orientDet, -Prod.mk_one_one, -Prod.mk_zero_zero]]
  simp

/-- C1: the two membership tests do NOT always agree.  On the polygon
that `ConvexPoly::new` builds from the square `{(0,0),(4,0),(4,4),(0,4)}`
(a hull with 4 ≥ 3 vertices) and the query point `(2,4)`, which lies
exactly on the hull edge from `(4,4)` to `(0,4)` (the orientation of that
edge triple is `Collinear`), `is_point_in_polygon` returns `true` while
`is_point_in_polygon_fast` returns `false`: the exact test accepts
`Collinear` edges (`!= Leftwards`) but the fast test demands strictly
`Rightwards` on both bracketing edges.  This violates the code's own
`assert_eq!(is_point_in_polygon_fast(..), is_point_in_polygon(..))`. -/
theorem c1_fast_exact_boundary_disagreement :
    convexPolyNew sqInput = some sqPoly ∧
    3 ≤ sqPoly.hull.length ∧
    Orientation.calc ((4 : ℝ), (4 : ℝ)) ((2 : ℝ), (4 : ℝ)) ((0 : ℝ), (4 : ℝ)) =
      Orientation.Collinear ∧
    isPointInPolygon sqPoly ((2 : ℝ), (4 : ℝ)) = true ∧
    isPointInPolygonFast sqPoly ((2 : ℝ), (4 : ℝ)) = some false :=
  ⟨convexPolyNew_sq, by norm_num [sqPoly],
    by norm_num [Orientation.calc, orientDet, -Prod.mk_one_one, -Prod.mk_zero_zero],
    exact_sq, fast_sq⟩

/-- Witness for C10 at a concrete call. -/
theorem c10_guards_unreachable_witness :
    binarySearchAngles [((0 : ℝ), (1 : ℝ)), ((1 : ℝ), (0 : ℝ)), ((1 : ℝ), (1 : ℝ))]
      origin 0 0 5 0 2 ≠ BsaOut.guardHit :=
  c10_guards_unreachable [((0 : ℝ), (1 : ℝ)), ((1 : ℝ), (0 : ℝ)), ((1 : ℝ), (1 : ℝ))]
    origin 0 0 5 0 2 (by norm_num)

end PolyGeo
